import Mathlib

/-!
Verification of the stack-height static analyzer of `paritytech/wasm-tools`
(`src/stack_height/max_height.rs`), shallowly embedded in Lean.

Machine integers (`u32`) are modelled as `Nat`; the `checked_add` overflow
check of `push_values` is kept explicit against `2^32`.  Every `panic!` /
`expect` of the Rust source is modelled by returning `none` (`Option`).
The analyzer's `Vec<Frame>` control stack is modelled as a `List Frame`
whose head is the innermost (= last pushed) frame, so that the source's
indexing from the end of the vector becomes `List.get?` from the head.
-/

/-- The limit of `u32` arithmetic: `checked_add` fails when the sum
reaches `2^32`. -/
def u32Bound : Nat := 4294967296

/-- One open control region (Rust `struct Frame`). -/
structure Frame where
  is_polymorphic : Bool
  end_arity : Nat
  branch_arity : Nat
  start_height : Nat
  deriving Repr, DecidableEq

/-- The abstract-interpretation state (Rust `struct Context`):
current abstract value-stack height plus the control stack,
innermost frame first. -/
structure Context where
  height : Nat
  control_stack : List Frame
  deriving Repr, DecidableEq

namespace Context

/-- `Context::frame`: frame at depth `rel_depth` from the innermost;
`none` models the `expect` panics on an empty or too-shallow stack. -/
def frame (ctx : Context) (rel_depth : Nat) : Option Frame :=
  ctx.control_stack.get? rel_depth

/-- `Context::mark_unreachable`: set `is_polymorphic` on the innermost
frame; `none` models the panic on an empty control stack. -/
def mark_unreachable (ctx : Context) : Option Context :=
  match ctx.control_stack with
  | [] => none
  | f :: rest => some ⟨ctx.height, { f with is_polymorphic := true } :: rest⟩

/-- `Context::push_frame`. -/
def push_frame (ctx : Context) (f : Frame) : Context :=
  ⟨ctx.height, f :: ctx.control_stack⟩

/-- `Context::trunc`: set the height directly. -/
def trunc (ctx : Context) (new_height : Nat) : Context :=
  ⟨new_height, ctx.control_stack⟩

/-- `Context::push_values`: `height += n`, with the `u32` `checked_add`
overflow panic modelled as `none`. -/
def push_values (ctx : Context) (value_count : Nat) : Option Context :=
  if ctx.height + value_count < u32Bound then
    some ⟨ctx.height + value_count, ctx.control_stack⟩
  else
    none

/-- `Context::pop_values`: at the innermost frame's `start_height` the pop
is a no-op on a polymorphic frame and a panic (`none`) otherwise;
below that, `height -= n` with the `checked_sub` underflow panic as
`none`.  `none` also models the `frame(0)` panic on an empty stack. -/
def pop_values (ctx : Context) (value_count : Nat) : Option Context :=
  match ctx.control_stack.head? with
  | none => none
  | some top_frame =>
    if ctx.height = top_frame.start_height then
      if top_frame.is_polymorphic then some ctx else none
    else
      if value_count ≤ ctx.height then
        some ⟨ctx.height - value_count, ctx.control_stack⟩
      else
        none

end Context

/-- `parity_wasm::elements::ValueType`. -/
inductive ValueType where
  | I32 | I64 | F32 | F64
  deriving Repr, DecidableEq

/-- `parity_wasm::elements::BlockType`. -/
inductive BlockType where
  | NoResult
  | Value (t : ValueType)
  deriving Repr, DecidableEq

/-- `Type::Function`: the analyzer reads only the parameter list and the
optional single return type. -/
structure FunctionType where
  params : List ValueType
  return_type : Option ValueType
  deriving Repr, DecidableEq

/-- The opcode forms, one constructor per match arm of the source's
dispatch.  The ~100 numeric/memory forms that share one arm (hence one
stack effect) are collapsed into the single constructor for that arm
(`Load` for all loads, `Store` for all stores, `Const` for the four
literal forms, `TestOp` for `eqz`, `RelOp` for two-operand comparisons,
`UnOp`, `BinOp`, `CvtOp`); immaterial immediates (local/global indices,
memory offsets, literal values) are omitted since the source ignores
them. -/
inductive Opcode where
  | Nop
  | Block (ty : BlockType)
  | Loop (ty : BlockType)
  | If (ty : BlockType)
  | Else
  | End
  | Unreachable
  | Br (target : Nat)
  | BrIf (target : Nat)
  | BrTable (targets : List Nat) (default_target : Nat)
  | Return
  | Call (x : Nat)
  | CallIndirect (x : Nat) (reserved : Nat)
  | Drop
  | Select
  | GetLocal
  | SetLocal
  | TeeLocal
  | GetGlobal
  | SetGlobal
  | Load
  | Store
  | CurrentMemory
  | GrowMemory
  | Const
  | TestOp
  | RelOp
  | UnOp
  | BinOp
  | CvtOp
  deriving Repr, DecidableEq

/-- The `block`/`loop`/`if` result arity: `0` or `1` from the declared
block type (source line `let end_arity = if ty == BlockType::NoResult
\x7b 0 \x7d else \x7b 1 \x7d`). -/
def blockArity (ty : BlockType) : Nat :=
  if ty = BlockType.NoResult then 0 else 1

/-- The effect of `Call(x)` and `CallIndirect(x, _)`: pop the callee's
parameter count, push `1` iff the callee returns a value. -/
def callEffect (type_section : List FunctionType) (x : Nat)
    (ctx : Context) : Option Context := do
  let ty ← type_section.get? x
  let c ← ctx.pop_values ty.params.length
  c.push_values (if ty.return_type.isSome then 1 else 0)

/-- One iteration of the dispatch `match` of `max_stack_height`:
the stack effect of a single opcode.  `func_arity` is the enclosing
function's return arity (used by `Return`); `type_section` resolves
call-type indices. -/
def step (type_section : List FunctionType) (func_arity : Nat)
    (ctx : Context) : Opcode → Option Context
  | .Nop => some ctx
  | .Block ty =>
    some (ctx.push_frame ⟨false, blockArity ty, blockArity ty, ctx.height⟩)
  | .Loop ty =>
    some (ctx.push_frame ⟨false, blockArity ty, 0, ctx.height⟩)
  | .If ty =>
    some (ctx.push_frame ⟨false, blockArity ty, blockArity ty, ctx.height⟩)
  | .Else => some ctx
  | .End =>
    match ctx.control_stack with
    | [] => none
    | f :: rest => Context.push_values ⟨f.start_height, rest⟩ f.end_arity
  | .Unreachable => ctx.mark_unreachable
  | .Br target => do
    let fr ← ctx.frame target
    let c ← ctx.pop_values fr.branch_arity
    c.mark_unreachable
  | .BrIf target => do
    let fr ← ctx.frame target
    let c ← ctx.pop_values fr.branch_arity
    c.pop_values 1
  | .BrTable targets default_target => do
    let fd ← ctx.frame default_target
    let arities ← targets.mapM (fun t => (ctx.frame t).map Frame.branch_arity)
    if arities.all (· = fd.branch_arity) then
      do
        let c ← ctx.pop_values fd.branch_arity
        c.mark_unreachable
    else
      none
  | .Return => do
    let c ← ctx.pop_values func_arity
    c.mark_unreachable
  | .Call x => callEffect type_section x ctx
  | .CallIndirect x _ => callEffect type_section x ctx
  | .Drop => ctx.pop_values 1
  | .Select => do
    let c ← ctx.pop_values 2
    let c2 ← c.pop_values 1
    c2.push_values 1
  | .GetLocal => ctx.push_values 1
  | .SetLocal => ctx.pop_values 1
  | .TeeLocal => do
    let c ← ctx.pop_values 1
    c.push_values 1
  | .GetGlobal => ctx.push_values 1
  | .SetGlobal => ctx.pop_values 1
  | .Load => do
    let c ← ctx.pop_values 1
    c.push_values 1
  | .Store => ctx.pop_values 2
  | .CurrentMemory => ctx.push_values 1
  | .GrowMemory => do
    let c ← ctx.pop_values 1
    c.push_values 1
  | .Const => ctx.push_values 1
  | .TestOp => do
    let c ← ctx.pop_values 1
    c.push_values 1
  | .RelOp => do
    let c ← ctx.pop_values 2
    c.push_values 1
  | .UnOp => do
    let c ← ctx.pop_values 1
    c.push_values 1
  | .BinOp => do
    let c ← ctx.pop_values 2
    c.push_values 1
  | .CvtOp => do
    let c ← ctx.pop_values 1
    c.push_values 1

/-- The running-maximum update performed before each dispatch
(source: `if ctx.height() > max_height && !ctx.frame(0).is_polymorphic
\x7b max_height = ctx.height(); \x7d`).  The `&&` short-circuit is kept:
`frame(0)` (whose panic is `none`) is consulted only when the height
exceeds the maximum. -/
def updateMax (ctx : Context) (max_height : Nat) : Option Nat :=
  if max_height < ctx.height then
    match ctx.control_stack.head? with
    | none => none
    | some f => some (if f.is_polymorphic then max_height else ctx.height)
  else
    some max_height

/-- The main loop of `max_stack_height`: for each remaining opcode,
first update the running maximum, then dispatch the opcode's stack
effect. -/
def analyzeLoop (type_section : List FunctionType) (func_arity : Nat) :
    List Opcode → Context → Nat → Option Nat
  | [], _, max_height => some max_height
  | op :: rest, ctx, max_height => do
    let m ← updateMax ctx max_height
    let c ← step type_section func_arity ctx op
    analyzeLoop type_section func_arity rest c m

/-- The decoded module sections the analyzer reads.  Each section is
optional, as in `parity_wasm`; the source's `expect`s on absent
sections become `none` results. -/
structure WasmModule where
  type_section : List FunctionType
  function_section : List Nat
  code_section : List (List Opcode)
  has_type_section : Bool
  has_function_section : Bool
  has_code_section : Bool
  deriving Repr, DecidableEq

/-- `max_stack_height(func_idx, module)`: resolve the function's
signature and body, push the implicit function-level frame
(`end_arity = branch_arity = ` the function's return arity,
`start_height = 0`, non-polymorphic), then run the analysis loop with
`max_height = 0`.  `none` models every panic of the Rust source. -/
def max_stack_height (func_idx : Nat) (m : WasmModule) : Option Nat := do
  let func_section ← if m.has_function_section then some m.function_section else none
  let type_section ← if m.has_type_section then some m.type_section else none
  let code_section ← if m.has_code_section then some m.code_section else none
  let func_sig_idx ← func_section.get? func_idx
  let func_signature ← type_section.get? func_sig_idx
  let opcodes ← code_section.get? func_idx
  let func_arity : Nat := if func_signature.return_type.isSome then 1 else 0
  let ctx : Context :=
    Context.push_frame ⟨0, []⟩ ⟨false, func_arity, func_arity, 0⟩
  analyzeLoop type_section func_arity opcodes ctx 0

/-- A convenient constructor for a module in which all three sections
are present. -/
def WasmModule.ofSections (types : List FunctionType) (funcs : List Nat)
    (codes : List (List Opcode)) : WasmModule :=
  ⟨types, funcs, codes, true, true, true⟩

/-- A `() -> ()` function type. -/
def voidType : FunctionType := ⟨[], none⟩

/-- The spec's mixed reachable/polymorphic example: `const, const, drop,
drop, unreachable, const, const, const` (with the closing `end`). -/
def moduleMixedUnreachable : WasmModule :=
  WasmModule.ofSections [voidType] [0]
    [[.Const, .Const, .Drop, .Drop, .Unreachable, .Const, .Const, .Const, .End]]

/-- The spec's call example: a caller pushing two constants and calling a
2-parameter, 1-result function. -/
def moduleCallExample : WasmModule :=
  WasmModule.ofSections [voidType, ⟨[.I32, .I32], some .I32⟩] [0, 1]
    [[.Const, .Const, .Call 1, .Drop, .End], [.Const, .End]]

/-- A function with no return type whose body is the single instruction
`return` (plus the implicit closing `end`). -/
def moduleBareReturn : WasmModule :=
  WasmModule.ofSections [voidType] [0] [[.Return, .End]]

/-- A body whose `if` region is entered right after the condition was
pushed: `const, if, const, drop, end, end`. -/
def moduleIfCondition : WasmModule :=
  WasmModule.ofSections [voidType] [0]
    [[.Const, .If .NoResult, .Const, .Drop, .End, .End]]

/-- A body (not valid WASM, but analyzable) whose `store` pops across the
innermost block's `start_height`: `const, const, const, block, const,
store, end, end`. -/
def moduleStoreCrossing : WasmModule :=
  WasmModule.ofSections [voidType] [0]
    [[.Const, .Const, .Const, .Block .NoResult, .Const, .Store, .End, .End]]

/-- The spec's claimed invariant: while the innermost frame is
non-polymorphic, the current height is at least that frame's
`start_height`. -/
def heightInv (ctx : Context) : Bool :=
  match ctx.control_stack.head? with
  | none => true
  | some f => f.is_polymorphic || decide (f.start_height ≤ ctx.height)

/-- Closed form of `pop_values` when the innermost frame is known. -/
theorem pop_values_eq (ctx : Context) (n : Nat) (f : Frame)
    (r : List Frame) (h : ctx.control_stack = f :: r) :
    ctx.pop_values n =
      if ctx.height = f.start_height then
        (if f.is_polymorphic then some ctx else none)
      else if n ≤ ctx.height then
        some ⟨ctx.height - n, ctx.control_stack⟩
      else
        none := by
  unfold Context.pop_values
  rw [h]
  rfl

/-- `pop_values` never touches the control stack. -/
theorem pop_values_control_stack (ctx : Context) (n : Nat) (c : Context)
    (h : ctx.pop_values n = some c) : c.control_stack = ctx.control_stack := by
  cases hs : ctx.control_stack with
  | nil =>
    unfold Context.pop_values at h
    rw [hs] at h
    exact absurd h (by simp)
  | cons f r =>
    rw [pop_values_eq ctx n f r hs] at h
    split at h
    · split at h
      · have h2 := Option.some.inj h; subst h2; exact hs
      · exact absurd h (by simp)
    · split at h
      · have h2 := Option.some.inj h; subst h2; exact hs
      · exact absurd h (by simp)

/-- If `mapM` over `Option` succeeds on a list, it succeeds on each
member, and the image is in the result. -/
theorem mapM_option_mem {α β : Type} (g : α → Option β) :
    ∀ (xs : List α) (l : List β) (a : α),
      xs.mapM g = some l → a ∈ xs → ∃ b, g a = some b ∧ b ∈ l := by
  intro xs
  induction xs with
  | nil => intro l a _ ha; exact absurd ha (List.not_mem_nil a)
  | cons x xs ih =>
    intro l a hmap ha
    rw [List.mapM_cons] at hmap
    cases hx : g x with
    | none => rw [hx] at hmap; exact absurd hmap (by simp)
    | some b =>
      rw [hx] at hmap
      cases hxs : xs.mapM g with
      | none => rw [hxs] at hmap; exact absurd hmap (by simp)
      | some bs =>
        rw [hxs] at hmap
        simp at hmap
        subst hmap
        rcases List.mem_cons.mp ha with rfl | hmem
        · exact ⟨b, hx, List.mem_cons_self b bs⟩
        · obtain ⟨b2, hb2, hbl⟩ := ih bs a hxs hmem
          exact ⟨b2, hb2, List.mem_cons_of_mem b hbl⟩

/-- C2.  `pop_values(n)` on a context whose innermost frame is `f`:
at `height = f.start_height` it is a no-op when `f` is polymorphic and
fatal otherwise, regardless of `n`; below that it subtracts `n` from the
height, failing exactly on underflow. -/
theorem pop_values_semantics (ctx : Context) (n : Nat) (f : Frame)
    (r : List Frame) (h : ctx.control_stack = f :: r) :
    ctx.pop_values n =
      if ctx.height = f.start_height then
        (if f.is_polymorphic then some ctx else none)
      else if n ≤ ctx.height then
        some ⟨ctx.height - n, ctx.control_stack⟩
      else
        none :=
  pop_values_eq ctx n f r h

/-- Witness for C2: popping 1 from height 2 above a non-polymorphic frame
with `start_height = 1` yields height 1. -/
theorem pop_values_semantics_witness :
    Context.pop_values ⟨2, [⟨false, 0, 0, 1⟩]⟩ 1 =
      some ⟨1, [⟨false, 0, 0, 1⟩]⟩ :=
  (pop_values_semantics ⟨2, [⟨false, 0, 0, 1⟩]⟩ 1 ⟨false, 0, 0, 1⟩ [] rfl).trans
    (by decide)

/-- C4.  `block`, `loop` and `if` each push a fresh, non-polymorphic
innermost frame at the current height, with `end_arity` 1 exactly when a
result type is declared, and `branch_arity` equal to `end_arity` except
for `loop`, where it is 0; nothing else changes. -/
theorem block_loop_if_push_frame (ts : List FunctionType) (fa : Nat)
    (ty : BlockType) (ctx : Context) :
    step ts fa ctx (.Block ty) =
      some ⟨ctx.height,
        ⟨false, (if ty = .NoResult then 0 else 1), (if ty = .NoResult then 0 else 1),
          ctx.height⟩ :: ctx.control_stack⟩ ∧
    step ts fa ctx (.Loop ty) =
      some ⟨ctx.height,
        ⟨false, (if ty = .NoResult then 0 else 1), 0, ctx.height⟩ :: ctx.control_stack⟩ ∧
    step ts fa ctx (.If ty) =
      some ⟨ctx.height,
        ⟨false, (if ty = .NoResult then 0 else 1), (if ty = .NoResult then 0 else 1),
          ctx.height⟩ :: ctx.control_stack⟩ :=
  ⟨rfl, rfl, rfl⟩

/-- C5.  `end` pops the innermost frame, resets the height to that
frame's `start_height` and then adds its `end_arity`; the rest of the
control stack is untouched. -/
theorem end_pops_frame (ts : List FunctionType) (fa : Nat) (ctx : Context)
    (f : Frame) (rest : List Frame) (h : ctx.control_stack = f :: rest)
    (hov : f.start_height + f.end_arity < u32Bound) :
    step ts fa ctx .End = some ⟨f.start_height + f.end_arity, rest⟩ := by
  have e : step ts fa ctx .End =
      (match ctx.control_stack with
       | [] => none
       | f :: rest => Context.push_values ⟨f.start_height, rest⟩ f.end_arity) := rfl
  rw [e, h]
  simp [Context.push_values, hov]

/-- Witness for C5: closing a frame with `start_height = 3` and
`end_arity = 1` from height 7 gives height 4. -/
theorem end_pops_frame_witness :
    step [] 0 ⟨7, [⟨false, 1, 1, 3⟩, ⟨false, 0, 0, 0⟩]⟩ .End =
      some ⟨4, [⟨false, 0, 0, 0⟩]⟩ :=
  end_pops_frame [] 0 ⟨7, [⟨false, 1, 1, 3⟩, ⟨false, 0, 0, 0⟩]⟩
    ⟨false, 1, 1, 3⟩ [⟨false, 0, 0, 0⟩] rfl (by decide)

/-- C1.  The running maximum is consulted exactly once before each
dispatch: the loop on a non-empty opcode list first applies the
maximum update, then the opcode's stack effect.  The update raises the
maximum to the current height exactly when the height exceeds it and
the innermost frame is non-polymorphic; and on the spec's mixed
reachable/polymorphic body `const, const, drop, drop, unreachable,
const, const, const` the reported height is 2. -/
theorem max_update_before_dispatch :
    (∀ (ts : List FunctionType) (fa : Nat) (op : Opcode) (rest : List Opcode)
        (ctx : Context) (m : Nat),
      analyzeLoop ts fa (op :: rest) ctx m =
        (updateMax ctx m).bind (fun m2 =>
          (step ts fa ctx op).bind (fun c => analyzeLoop ts fa rest c m2))) ∧
    (∀ (ctx : Context) (m : Nat) (f : Frame) (r : List Frame),
      ctx.control_stack = f :: r →
      updateMax ctx m =
        some (if m < ctx.height ∧ f.is_polymorphic = false then ctx.height else m)) ∧
    max_stack_height 0 moduleMixedUnreachable = some 2 := by
  refine ⟨fun ts fa op rest ctx m => rfl, fun ctx m f r h => ?_, by decide⟩
  unfold updateMax
  rw [h]
  by_cases hm : m < ctx.height
  · rw [if_pos hm]
    cases hp : f.is_polymorphic <;> simp [hp, hm]
  · rw [if_neg hm]
    simp [hm]

/-- Witness for C1: the update fires on a non-polymorphic frame when the
height 3 exceeds the maximum 1. -/
theorem max_update_before_dispatch_witness :
    updateMax ⟨3, [⟨false, 0, 0, 0⟩]⟩ 1 = some 3 :=
  (max_update_before_dispatch.2.1 ⟨3, [⟨false, 0, 0, 0⟩]⟩ 1
    ⟨false, 0, 0, 0⟩ [] rfl).trans (by decide)

/-- C9.  When the height sits exactly at a non-polymorphic innermost
frame's `start_height`, `return` (and `br`, even to a target of
`branch_arity` 0) aborts the analysis: the pop of the function arity
takes the fatal branch of `pop_values`.  In particular a function with
no return type whose body is `return, end` makes `max_stack_height`
abort instead of returning a height. -/
theorem return_fatal_at_start_height :
    (∀ (ts : List FunctionType) (fa : Nat) (ctx : Context) (f : Frame)
        (r : List Frame),
      ctx.control_stack = f :: r → f.is_polymorphic = false →
      ctx.height = f.start_height →
      step ts fa ctx .Return = none) ∧
    (∀ (ts : List FunctionType) (fa : Nat) (ctx : Context) (t : Nat)
        (fr f : Frame) (r : List Frame),
      ctx.frame t = some fr → fr.branch_arity = 0 →
      ctx.control_stack = f :: r → f.is_polymorphic = false →
      ctx.height = f.start_height →
      step ts fa ctx (.Br t) = none) ∧
    max_stack_height 0 moduleBareReturn = none := by
  refine ⟨fun ts fa ctx f r h1 h2 h3 => ?_,
          fun ts fa ctx t fr f r hft _ h1 h2 h3 => ?_, by decide⟩
  · have e : step ts fa ctx .Return =
        (ctx.pop_values fa).bind Context.mark_unreachable := rfl
    rw [e, pop_values_eq ctx fa f r h1, if_pos h3]
    simp [h2]
  · have e : step ts fa ctx (.Br t) =
        (ctx.frame t).bind (fun fr2 =>
          (ctx.pop_values fr2.branch_arity).bind Context.mark_unreachable) := rfl
    rw [e, hft]
    rw [Option.some_bind, pop_values_eq ctx fr.branch_arity f r h1, if_pos h3]
    simp [h2]

/-- Witness for C9: a bare `return` at height 0 in a fresh function
frame aborts, and so does a `br` to an outer 0-arity frame. -/
theorem return_fatal_at_start_height_witness :
    step [] 0 ⟨0, [⟨false, 0, 0, 0⟩]⟩ .Return = none ∧
    step [] 0 ⟨0, [⟨false, 0, 0, 0⟩, ⟨false, 0, 0, 0⟩]⟩ (.Br 1) = none :=
  ⟨return_fatal_at_start_height.1 [] 0 ⟨0, [⟨false, 0, 0, 0⟩]⟩
      ⟨false, 0, 0, 0⟩ [] rfl rfl rfl,
   return_fatal_at_start_height.2.1 [] 0
      ⟨0, [⟨false, 0, 0, 0⟩, ⟨false, 0, 0, 0⟩]⟩ 1 ⟨false, 0, 0, 0⟩
      ⟨false, 0, 0, 0⟩ [⟨false, 0, 0, 0⟩] rfl rfl rfl rfl rfl⟩

/-- C10.  `if` does not pop its i32 condition: its entire effect is
pushing the new frame, the height is unchanged; hence on
`const, if, const, drop, end, end` the analyzer reports 2 although the
condition is consumed by `if` in real execution (true depth 1): the
unconsumed condition slot inflates every height recorded inside the
region. -/
theorem if_does_not_pop_condition :
    (∀ (ts : List FunctionType) (fa : Nat) (ty : BlockType) (ctx : Context),
      step ts fa ctx (.If ty) =
        some ⟨ctx.height,
          ⟨false, blockArity ty, blockArity ty, ctx.height⟩ :: ctx.control_stack⟩) ∧
    (∀ (ts : List FunctionType) (fa : Nat) (ty : BlockType) (ctx : Context),
      (step ts fa ctx (.If ty)).map Context.height = some ctx.height) ∧
    max_stack_height 0 moduleIfCondition = some 2 :=
  ⟨fun _ _ _ _ => rfl, fun _ _ _ _ => rfl, by decide⟩

/-- C6.  `call_indirect` has exactly the stack effect of `call` on the
same type index; a `call` resolving to a type with `p` parameters pops
`p` values and pushes 1 exactly when a return type is declared; and on
the spec's example (two constants pushed from height 0, then a call to
a 2-parameter 1-result function) the reported maximum is 2 while the
post-call height is 1. -/
theorem call_pops_params_pushes_result :
    (∀ (ts : List FunctionType) (fa : Nat) (x rsv : Nat) (ctx : Context),
      step ts fa ctx (.CallIndirect x rsv) = step ts fa ctx (.Call x)) ∧
    (∀ (ts : List FunctionType) (fa : Nat) (x : Nat) (ty : FunctionType)
        (ctx : Context) (f : Frame) (rest : List Frame),
      ts.get? x = some ty →
      ctx.control_stack = f :: rest →
      f.start_height < ctx.height →
      ty.params.length ≤ ctx.height →
      ctx.height - ty.params.length + (if ty.return_type.isSome then 1 else 0)
        < u32Bound →
      step ts fa ctx (.Call x) =
        some ⟨ctx.height - ty.params.length +
                (if ty.return_type.isSome then 1 else 0),
              ctx.control_stack⟩) ∧
    step [voidType, ⟨[.I32, .I32], some .I32⟩] 0 ⟨2, [⟨false, 0, 0, 0⟩]⟩
        (.Call 1) = some ⟨1, [⟨false, 0, 0, 0⟩]⟩ ∧
    max_stack_height 0 moduleCallExample = some 2 := by
  refine ⟨fun _ _ _ _ _ => rfl,
          fun ts fa x ty ctx f rest hty hs hlt hle hov => ?_,
          by decide, by decide⟩
  have e : step ts fa ctx (.Call x) =
      (ts.get? x).bind (fun ty2 =>
        (ctx.pop_values ty2.params.length).bind (fun c =>
          c.push_values (if ty2.return_type.isSome then 1 else 0))) := rfl
  have hne : ¬ ctx.height = f.start_height := by omega
  rw [e, hty, Option.some_bind,
      pop_values_eq ctx ty.params.length f rest hs, if_neg hne, if_pos hle,
      Option.some_bind]
  simp only [Context.push_values]
  rw [if_pos hov]

/-- Witness for C6: calling the 2-parameter 1-result type from height 2
leaves height 1. -/
theorem call_pops_params_pushes_result_witness :
    step [⟨[.I32, .I32], some .I32⟩] 0 ⟨2, [⟨false, 0, 0, 0⟩]⟩ (.Call 0) =
      some ⟨1, [⟨false, 0, 0, 0⟩]⟩ :=
  (call_pops_params_pushes_result.2.1 [⟨[.I32, .I32], some .I32⟩] 0 0
    ⟨[.I32, .I32], some .I32⟩ ⟨2, [⟨false, 0, 0, 0⟩]⟩ ⟨false, 0, 0, 0⟩ []
    rfl rfl (by decide) (by decide) (by decide)).trans (by decide)

/-- C8.  `br_if` never changes the control stack (in particular it marks
nothing polymorphic), and away from the frame boundary it pops the
target's `branch_arity` followed by one condition value. -/
theorem br_if_pops_without_marking :
    (∀ (ts : List FunctionType) (fa : Nat) (ctx : Context) (t : Nat)
        (c : Context),
      step ts fa ctx (.BrIf t) = some c →
      c.control_stack = ctx.control_stack) ∧
    (∀ (ts : List FunctionType) (fa : Nat) (ctx : Context) (t : Nat)
        (fr f : Frame) (r : List Frame),
      ctx.frame t = some fr →
      ctx.control_stack = f :: r →
      f.start_height + fr.branch_arity + 1 ≤ ctx.height →
      step ts fa ctx (.BrIf t) =
        some ⟨ctx.height - fr.branch_arity - 1, ctx.control_stack⟩) := by
  constructor
  · intro ts fa ctx t c hstep
    have e : step ts fa ctx (.BrIf t) =
        (ctx.frame t).bind (fun fr =>
          (ctx.pop_values fr.branch_arity).bind (fun c2 => c2.pop_values 1)) := rfl
    rw [e] at hstep
    cases hf : ctx.frame t with
    | none => rw [hf] at hstep; exact absurd hstep (by simp)
    | some fr =>
      rw [hf, Option.some_bind] at hstep
      cases hp1 : ctx.pop_values fr.branch_arity with
      | none => rw [hp1] at hstep; exact absurd hstep (by simp)
      | some c1 =>
        rw [hp1, Option.some_bind] at hstep
        have e1 := pop_values_control_stack ctx fr.branch_arity c1 hp1
        have e2 := pop_values_control_stack c1 1 c hstep
        rw [e2, e1]
  · intro ts fa ctx t fr f r hft hs hle
    have e : step ts fa ctx (.BrIf t) =
        (ctx.frame t).bind (fun fr2 =>
          (ctx.pop_values fr2.branch_arity).bind (fun c2 => c2.pop_values 1)) := rfl
    have hne1 : ¬ ctx.height = f.start_height := by omega
    have hle1 : fr.branch_arity ≤ ctx.height := by omega
    rw [e, hft, Option.some_bind,
        pop_values_eq ctx fr.branch_arity f r hs, if_neg hne1, if_pos hle1,
        Option.some_bind,
        pop_values_eq ⟨ctx.height - fr.branch_arity, ctx.control_stack⟩ 1 f r hs]
    have hne2 : ¬ ctx.height - fr.branch_arity = f.start_height := by omega
    have hle2 : 1 ≤ ctx.height - fr.branch_arity := by omega
    rw [if_neg hne2, if_pos hle2]

/-- Witness for C8: branching conditionally to a 1-arity target from
height 4 pops 2 values and leaves the frames untouched. -/
theorem br_if_pops_without_marking_witness :
    step [] 0 ⟨4, [⟨false, 1, 1, 0⟩]⟩ (.BrIf 0) =
      some ⟨2, [⟨false, 1, 1, 0⟩]⟩ ∧
    Context.control_stack ⟨2, [⟨false, 1, 1, 0⟩]⟩ =
      Context.control_stack ⟨4, [⟨false, 1, 1, 0⟩]⟩ :=
  ⟨(br_if_pops_without_marking.2 [] 0 ⟨4, [⟨false, 1, 1, 0⟩]⟩ 0
      ⟨false, 1, 1, 0⟩ ⟨false, 1, 1, 0⟩ [] rfl rfl (by decide)).trans (by decide),
   br_if_pops_without_marking.1 [] 0 ⟨4, [⟨false, 1, 1, 0⟩]⟩ 0
      ⟨2, [⟨false, 1, 1, 0⟩]⟩ (by decide)⟩

/-- C7.  `br_table` first resolves the default target's frame, then
asserts that every listed target's frame has the same `branch_arity`:
a listed target whose arity differs from the default's aborts the
dispatch.  When the assertion holds it pops the default target's
`branch_arity` and marks the innermost frame polymorphic. -/
theorem br_table_consistency :
    (∀ (ts : List FunctionType) (fa : Nat) (ctx : Context)
        (tgts : List Nat) (d : Nat) (fd : Frame) (t : Nat) (ft : Frame),
      ctx.frame d = some fd →
      t ∈ tgts →
      ctx.frame t = some ft →
      ft.branch_arity ≠ fd.branch_arity →
      step ts fa ctx (.BrTable tgts d) = none) ∧
    (∀ (ts : List FunctionType) (fa : Nat) (ctx : Context)
        (tgts : List Nat) (d : Nat) (fd : Frame) (l : List Nat),
      ctx.frame d = some fd →
      tgts.mapM (fun t2 => (ctx.frame t2).map Frame.branch_arity) = some l →
      l.all (· = fd.branch_arity) = true →
      step ts fa ctx (.BrTable tgts d) =
        (ctx.pop_values fd.branch_arity).bind Context.mark_unreachable) := by
  have e : ∀ (ts : List FunctionType) (fa : Nat) (ctx : Context)
      (tgts : List Nat) (d : Nat),
      step ts fa ctx (.BrTable tgts d) =
        (ctx.frame d).bind (fun fd2 =>
          (tgts.mapM (fun t2 => (ctx.frame t2).map Frame.branch_arity)).bind
            (fun arities =>
              if arities.all (· = fd2.branch_arity) then
                (ctx.pop_values fd2.branch_arity).bind Context.mark_unreachable
              else
                none)) := fun _ _ _ _ _ => rfl
  constructor
  · intro ts fa ctx tgts d fd t ft hfd hmem hft hne
    rw [e, hfd, Option.some_bind]
    cases hmap : tgts.mapM (fun t2 => (ctx.frame t2).map Frame.branch_arity) with
    | none => simp
    | some l =>
      rw [Option.some_bind]
      obtain ⟨b, hb, hbl⟩ :=
        mapM_option_mem (fun t2 => (ctx.frame t2).map Frame.branch_arity)
          tgts l t hmap hmem
      rw [hft] at hb
      simp at hb
      subst hb
      have hfalse : l.all (· = fd.branch_arity) = false := by
        rw [List.all_eq_false]
        exact ⟨ft.branch_arity, hbl, by simp [hne]⟩
      rw [hfalse]
      rfl
  · intro ts fa ctx tgts d fd l hfd hmap hall
    rw [e, hfd, Option.some_bind, hmap, Option.some_bind, if_pos hall]

/-- Witness for C7: with an inner frame of `branch_arity` 1 and an outer
frame of `branch_arity` 0, `br_table [0] 1` trips the consistency
check, while `br_table [1] 1` dispatches the pop-and-mark. -/
theorem br_table_consistency_witness :
    step [] 0 ⟨0, [⟨false, 1, 1, 0⟩, ⟨true, 0, 0, 0⟩]⟩ (.BrTable [0] 1) =
      none ∧
    step [] 0 ⟨0, [⟨false, 1, 1, 0⟩, ⟨true, 0, 0, 0⟩]⟩ (.BrTable [1] 1) =
      (Context.pop_values ⟨0, [⟨false, 1, 1, 0⟩, ⟨true, 0, 0, 0⟩]⟩ 0).bind
        Context.mark_unreachable :=
  ⟨br_table_consistency.1 [] 0 ⟨0, [⟨false, 1, 1, 0⟩, ⟨true, 0, 0, 0⟩]⟩
      [0] 1 ⟨true, 0, 0, 0⟩ 0 ⟨false, 1, 1, 0⟩ rfl (by decide) rfl (by decide),
   br_table_consistency.2 [] 0 ⟨0, [⟨false, 1, 1, 0⟩, ⟨true, 0, 0, 0⟩]⟩
      [1] 1 ⟨true, 0, 0, 0⟩ [0] rfl (by decide) (by decide)⟩

/-- The analyzer loop with the full state exposed: each iteration
performs the maximum update, then the dispatch, and returns the final
context together with the final maximum. -/
def analyzeStates (type_section : List FunctionType) (func_arity : Nat) :
    List Opcode → Context × Nat → Option (Context × Nat)
  | [], s => some s
  | op :: rest, (ctx, max_height) => do
    let m ← updateMax ctx max_height
    let c ← step type_section func_arity ctx op
    analyzeStates type_section func_arity rest (c, m)

/-- `analyzeLoop` is the maximum component of `analyzeStates`. -/
theorem analyzeLoop_eq_states (ts : List FunctionType) (fa : Nat) :
    ∀ (ops : List Opcode) (ctx : Context) (m : Nat),
      analyzeLoop ts fa ops ctx m =
        (analyzeStates ts fa ops (ctx, m)).map Prod.snd := by
  intro ops
  induction ops with
  | nil => intro ctx m; rfl
  | cons op rest ih =>
    intro ctx m
    cases hm : updateMax ctx m with
    | none => simp [analyzeLoop, analyzeStates, hm]
    | some m2 =>
      cases hc : step ts fa ctx op with
      | none => simp [analyzeLoop, analyzeStates, hm, hc]
      | some c => simp [analyzeLoop, analyzeStates, hm, hc, ih]

/-- The analyzer run decomposes over a split of the opcode list: the
state after a prefix is an intermediate state of the whole run. -/
theorem analyzeStates_append (ts : List FunctionType) (fa : Nat) :
    ∀ (xs ys : List Opcode) (s : Context × Nat),
      analyzeStates ts fa (xs ++ ys) s =
        (analyzeStates ts fa xs s).bind (analyzeStates ts fa ys) := by
  intro xs
  induction xs with
  | nil => intro ys s; rfl
  | cons op rest ih =>
    intro ys s
    obtain ⟨ctx, m⟩ := s
    cases hm : updateMax ctx m with
    | none => simp [analyzeStates, hm]
    | some m2 =>
      cases hc : step ts fa ctx op with
      | none => simp [analyzeStates, hm, hc]
      | some c => simp [analyzeStates, hm, hc, ih]

/-- Reformulation of `heightInv` at a known innermost frame. -/
theorem heightInv_cons (ctx : Context) (f : Frame) (r : List Frame)
    (h : ctx.control_stack = f :: r) :
    heightInv ctx = (f.is_polymorphic || decide (f.start_height ≤ ctx.height)) := by
  unfold heightInv
  rw [h]
  rfl

/-- `heightInv` holds vacuously on an empty control stack. -/
theorem heightInv_nil (ctx : Context) (h : ctx.control_stack = []) :
    heightInv ctx = true := by
  unfold heightInv
  rw [h]
  rfl

/-- Counterexample for C3.  Analyzing the (unvalidated) body
`const, const, const, block, const, store, end, end`, the analyzer
reaches — after the first five opcodes — the state of height 4 whose
innermost non-polymorphic frame has `start_height` 3; the claimed
invariant holds there, yet dispatching the `store` (a `pop_values 2`
crossing the frame's `start_height`) yields height 2 below the
innermost frame's `start_height` 3 without aborting, and the whole
analysis still returns a height. -/
theorem height_invariant_violation :
    analyzeStates [voidType] 0
        [.Const, .Const, .Const, .Block .NoResult, .Const]
        (Context.push_frame ⟨0, []⟩ ⟨false, 0, 0, 0⟩, 0) =
      some (⟨4, [⟨false, 0, 0, 3⟩, ⟨false, 0, 0, 0⟩]⟩, 3) ∧
    heightInv ⟨4, [⟨false, 0, 0, 3⟩, ⟨false, 0, 0, 0⟩]⟩ = true ∧
    step [voidType] 0 ⟨4, [⟨false, 0, 0, 3⟩, ⟨false, 0, 0, 0⟩]⟩ .Store =
      some ⟨2, [⟨false, 0, 0, 3⟩, ⟨false, 0, 0, 0⟩]⟩ ∧
    heightInv ⟨2, [⟨false, 0, 0, 3⟩, ⟨false, 0, 0, 0⟩]⟩ = false ∧
    max_stack_height 0 moduleStoreCrossing = some 4 :=
  ⟨by decide, by decide, by decide, by decide, by decide⟩

/-- C3 (amended).  The invariant "while the innermost frame is
non-polymorphic the height stays at or above its `start_height`" is
preserved by `push_values`, by `mark_unreachable`, by the analyzer's
`push_frame` (whose new frame starts at the current height), by the
`end` combination (pop frame, truncate, push `end_arity`) whenever the
enclosing frame starts no higher than the closed one, and by
`pop_values` whenever the pop does not cross the innermost frame's
`start_height`; a crossing pop (possible only on unvalidated input)
violates it, as `height_invariant_violation` shows. -/
theorem height_invariant_preservation :
    (∀ (ctx : Context) (n : Nat) (f : Frame) (r : List Frame) (c : Context),
      ctx.control_stack = f :: r →
      heightInv ctx = true →
      (ctx.height = f.start_height ∨ f.start_height + n ≤ ctx.height) →
      ctx.pop_values n = some c →
      heightInv c = true) ∧
    (∀ (ctx : Context) (n : Nat) (c : Context),
      heightInv ctx = true →
      ctx.push_values n = some c →
      heightInv c = true) ∧
    (∀ (ctx : Context) (c : Context),
      ctx.mark_unreachable = some c →
      heightInv c = true) ∧
    (∀ (ctx : Context) (p : Bool) (ea ba : Nat),
      heightInv (ctx.push_frame ⟨p, ea, ba, ctx.height⟩) = true) ∧
    (∀ (ts : List FunctionType) (fa : Nat) (ctx : Context) (f g : Frame)
        (r : List Frame) (c : Context),
      ctx.control_stack = f :: g :: r →
      g.start_height ≤ f.start_height →
      step ts fa ctx .End = some c →
      heightInv c = true) := by
  refine ⟨?_, ?_, ?_, ?_, ?_⟩
  · intro ctx n f r c hs hinv hcond hpop
    rw [pop_values_eq ctx n f r hs] at hpop
    by_cases he : ctx.height = f.start_height
    · rw [if_pos he] at hpop
      cases hp : f.is_polymorphic
      · rw [hp] at hpop; exact absurd hpop (by simp)
      · rw [hp] at hpop
        have hc := Option.some.inj hpop
        subst hc
        exact hinv
    · rw [if_neg he] at hpop
      by_cases hn : n ≤ ctx.height
      · rw [if_pos hn] at hpop
        have hc := Option.some.inj hpop
        subst hc
        rw [heightInv_cons ⟨ctx.height - n, ctx.control_stack⟩ f r hs]
        show (f.is_polymorphic || decide (f.start_height ≤ ctx.height - n)) = true
        cases hp : f.is_polymorphic
        · rcases hcond with h1 | h2
          · exact absurd h1 he
          · simp only [Bool.false_or, decide_eq_true_eq]
            omega
        · simp
      · rw [if_neg hn] at hpop; exact absurd hpop (by simp)
  · intro ctx n c hinv hpush
    unfold Context.push_values at hpush
    split at hpush
    · have hc := Option.some.inj hpush
      subst hc
      cases hs : ctx.control_stack with
      | nil => exact heightInv_nil ⟨ctx.height + n, []⟩ rfl
      | cons f r =>
        rw [heightInv_cons ⟨ctx.height + n, f :: r⟩ f r rfl]
        show (f.is_polymorphic || decide (f.start_height ≤ ctx.height + n)) = true
        rw [heightInv_cons ctx f r hs] at hinv
        cases hp : f.is_polymorphic
        · rw [hp] at hinv
          simp only [Bool.false_or, decide_eq_true_eq] at hinv ⊢
          omega
        · simp
    · exact absurd hpush (by simp)
  · intro ctx c hmark
    unfold Context.mark_unreachable at hmark
    cases hs : ctx.control_stack with
    | nil => rw [hs] at hmark; exact absurd hmark (by simp)
    | cons f r =>
      rw [hs] at hmark
      have hc := Option.some.inj hmark
      subst hc
      rw [heightInv_cons ⟨ctx.height, { f with is_polymorphic := true } :: r⟩
            { f with is_polymorphic := true } r rfl]
      simp
  · intro ctx p ea ba
    rw [heightInv_cons (ctx.push_frame ⟨p, ea, ba, ctx.height⟩)
          ⟨p, ea, ba, ctx.height⟩ ctx.control_stack rfl]
    show (p || decide (ctx.height ≤ ctx.height)) = true
    simp
  · intro ts fa ctx f g r c hs hle hstep
    have e : step ts fa ctx .End =
        (match ctx.control_stack with
         | [] => none
         | f2 :: rest => Context.push_values ⟨f2.start_height, rest⟩ f2.end_arity) := rfl
    rw [e, hs] at hstep
    simp only [Context.push_values] at hstep
    split at hstep
    · have hc := Option.some.inj hstep
      subst hc
      rw [heightInv_cons ⟨f.start_height + f.end_arity, g :: r⟩ g r rfl]
      show (g.is_polymorphic || decide (g.start_height ≤ f.start_height + f.end_arity)) = true
      cases hp : g.is_polymorphic
      · simp only [Bool.false_or, decide_eq_true_eq]
        omega
      · simp
    · exact absurd hstep (by simp)

/-- Witness for the amended C3: each preservation clause applied at a
concrete state. -/
theorem height_invariant_preservation_witness :
    heightInv ⟨1, [⟨false, 0, 0, 1⟩]⟩ = true ∧
    heightInv ⟨3, [⟨false, 0, 0, 1⟩]⟩ = true ∧
    heightInv ⟨2, [⟨true, 0, 0, 1⟩]⟩ = true ∧
    heightInv ⟨3, [⟨false, 0, 0, 0⟩]⟩ = true :=
  ⟨height_invariant_preservation.1 ⟨3, [⟨false, 0, 0, 1⟩]⟩ 2
      ⟨false, 0, 0, 1⟩ [] ⟨1, [⟨false, 0, 0, 1⟩]⟩ rfl (by decide)
      (Or.inr (by decide)) (by decide),
   height_invariant_preservation.2.1 ⟨2, [⟨false, 0, 0, 1⟩]⟩ 1
      ⟨3, [⟨false, 0, 0, 1⟩]⟩ (by decide) (by decide),
   height_invariant_preservation.2.2.1 ⟨2, [⟨false, 0, 0, 1⟩]⟩
      ⟨2, [⟨true, 0, 0, 1⟩]⟩ (by decide),
   height_invariant_preservation.2.2.2.2 [] 0
      ⟨5, [⟨false, 0, 0, 3⟩, ⟨false, 0, 0, 0⟩]⟩ ⟨false, 0, 0, 3⟩
      ⟨false, 0, 0, 0⟩ [] ⟨3, [⟨false, 0, 0, 0⟩]⟩ rfl (by decide) (by decide)⟩
